import Mathlib

/-!
# Verification of the go-metric metrics-instrumentation core

A shallow embedding, in Lean 4, of the core of the `liangweijiang/go-metric`
repository, together with proofs about it.

Go strings that are scanned rune by rune are modelled as `List ℕ` of Unicode
code points (Go's `rune` is a code point).  The Unicode character database
behind `unicode.IsLetter`, `unicode.IsDigit` and `strings.ToLower` is an
external dependency of the program; it is modelled as a parameter: a
`GoUnicode` value carries the three functions together with the properties
of the Unicode simple case mappings and categories that Go's implementation
satisfies, and the universally quantified sanitization theorems hold for
every such value — in particular for the real Unicode tables.  A concrete
`asciiUnicode` instance (the restriction of those functions to the ASCII
range, on which it coincides with Go's functions) is used for all concrete
evaluations.  Machine integers (`int32` atomics) are modelled as `Int` with
the only reachable values being 0 and 1.  Calls into the third-party
backend (`metric.Float64Counter.Add`, …) are modelled by recording the
forwarded value together with the attribute snapshot in a list, since the
backend is an external collaborator specified only as a sink.
-/

/-! ## pkg/utils: SanitizeMetricName (src/unnamed/part_003) -/

/-- The code point of the underscore character. -/
def underscoreRune : ℕ := 95

/-- `strings.Trim(s, "_")`: drop leading and trailing underscore runes. -/
def trimUnderscore (s : List ℕ) : List ℕ :=
  ((s.dropWhile (· = underscoreRune)).reverse.dropWhile (· = underscoreRune)).reverse

/-- The first byte of the UTF-8 encoding of a string whose first rune is
`r`.  The Go code indexes `name[0]`, i.e. the first *byte* of the string,
and converts that single byte to a rune; for a multi-byte first rune this
is the UTF-8 lead byte, not the rune itself. -/
def utf8FirstByte (r : ℕ) : ℕ :=
  if r < 128 then r
  else if r < 2048 then 192 + r / 64
  else if r < 65536 then 224 + r / 4096
  else 240 + r / 262144

/-- Convert a Lean string literal into the rune-list representation. -/
def strRunes (s : String) : List ℕ :=
  s.data.map Char.toNat

/-- The character-level semantics `SanitizeMetricName` is built on:
`unicode.IsLetter`, `unicode.IsDigit` and the per-rune mapping of
`strings.ToLower`, together with the facts about the Unicode character
database that the proofs rely on.  Each field below is a property of Go's
actual implementation: the simple lowercase mapping is idempotent (a
lowercased rune has no further lowercase mapping) and maps letters to
letters while fixing every non-letter, so it preserves the Letter and the
Digit categories; `_` (U+005F) is punctuation, neither letter nor digit,
and is fixed by lower-casing; `o` (U+006F) is a lowercase letter. -/
structure GoUnicode where
  isLetter : ℕ → Bool
  isDigit : ℕ → Bool
  toLower : ℕ → ℕ
  toLower_idem : ∀ r, toLower (toLower r) = toLower r
  toLower_underscore : toLower 95 = 95
  isLetter_toLower : ∀ r, isLetter (toLower r) = isLetter r
  isDigit_toLower : ∀ r, isDigit (toLower r) = isDigit r
  isLetter_underscore : isLetter 95 = false
  isDigit_underscore : isDigit 95 = false
  isLetter_o : isLetter 111 = true
  toLower_o : toLower 111 = 111

/-- The loop body of `SanitizeMetricName`: keep letters, digits and
underscores, replace every other rune with an underscore. -/
def sanitizeReplaceU (U : GoUnicode) (r : ℕ) : ℕ :=
  if U.isLetter r || U.isDigit r || r = underscoreRune then r else underscoreRune

/-- `pkg/utils.SanitizeMetricName` over the character semantics `U`.
Mirrors the Go source: lower-case the whole name, replace every rune that
is not a letter, digit or underscore by an underscore, trim
leading/trailing underscores, then test `rune(name[0])` — the first *byte*
of the trimmed string — and prepend `o_` when it is not a letter.  When the
trimmed string is empty the Go code indexes `name[0]` out of range and
panics; the panic is modelled by `none`. -/
def sanitizeMetricNameU (U : GoUnicode) (name : List ℕ) : Option (List ℕ) :=
  let lowered := name.map U.toLower
  let replaced := lowered.map (sanitizeReplaceU U)
  let trimmed := trimUnderscore replaced
  match trimmed with
  | [] => none
  | c :: _ =>
    some (if !U.isLetter (utf8FirstByte c) then 111 :: 95 :: trimmed else trimmed)

/-- `unicode.ToLower` restricted to the ASCII range: maps `A`–`Z` (65–90)
to `a`–`z` (97–122) and fixes everything else. -/
def goToLower (r : ℕ) : ℕ :=
  if 65 ≤ r ∧ r ≤ 90 then r + 32 else r

/-- `unicode.IsLetter` restricted to the ASCII range (`a`–`z`, `A`–`Z`). -/
def goIsLetter (r : ℕ) : Bool :=
  (97 ≤ r && r ≤ 122) || (65 ≤ r && r ≤ 90)

/-- `unicode.IsDigit` restricted to the ASCII range (`0`–`9`). -/
def goIsDigit (r : ℕ) : Bool :=
  48 ≤ r && r ≤ 57

lemma goToLower_idem (r : ℕ) : goToLower (goToLower r) = goToLower r := by
  unfold goToLower
  split_ifs with h1 h2 <;> omega

lemma goIsLetter_goToLower (r : ℕ) : goIsLetter (goToLower r) = goIsLetter r := by
  unfold goToLower goIsLetter
  split_ifs with h
  · rw [Bool.eq_iff_iff]
    simp only [Bool.or_eq_true, Bool.and_eq_true, decide_eq_true_eq]
    omega
  · rfl

lemma goIsDigit_goToLower (r : ℕ) : goIsDigit (goToLower r) = goIsDigit r := by
  unfold goToLower goIsDigit
  split_ifs with h
  · rw [Bool.eq_iff_iff]
    simp only [Bool.and_eq_true, decide_eq_true_eq]
    omega
  · rfl

/-- The ASCII restriction of Go's character functions, packaged as a
`GoUnicode` semantics.  On ASCII inputs (`r < 128`) its three functions
agree with Go's `unicode.IsLetter`, `unicode.IsDigit` and
`strings.ToLower` exactly. -/
def asciiUnicode : GoUnicode where
  isLetter := goIsLetter
  isDigit := goIsDigit
  toLower := goToLower
  toLower_idem := goToLower_idem
  toLower_underscore := by decide
  isLetter_toLower := goIsLetter_goToLower
  isDigit_toLower := goIsDigit_goToLower
  isLetter_underscore := by decide
  isDigit_underscore := by decide
  isLetter_o := by decide
  toLower_o := by decide

/-- `pkg/utils.SanitizeMetricName` at the ASCII semantics — the function
used for all concrete evaluations; on ASCII inputs it is exactly the Go
function. -/
def sanitizeMetricName : List ℕ → Option (List ℕ) :=
  sanitizeMetricNameU asciiUnicode

/-- Modelled from the spec (§6, metric-name sanitization rule): "lower-case
the name; replace every character that is not a letter, digit, or underscore
with an underscore; trim leading/trailing underscores; if the resulting first
character is not a letter, prepend `o_`."  This version is total (on an
empty trimmed string there is no first character, so the `o_` prefix is
prepended) and tests the first *character* of the trimmed string, as the
spec's words say — where the code tests the first byte.  It is the
spec-side definition compared against the code-side `sanitizeMetricName`,
over the same ASCII character semantics. -/
def specSanitizeMetricName (name : List ℕ) : List ℕ :=
  let lowered := name.map asciiUnicode.toLower
  let replaced := lowered.map (sanitizeReplaceU asciiUnicode)
  let trimmed := trimUnderscore replaced
  if !asciiUnicode.isLetter (trimmed.headD underscoreRune) then 111 :: 95 :: trimmed
  else trimmed

example : sanitizeMetricName (strRunes "1start") = some (strRunes "o_1start") := by decide
example : sanitizeMetricName (strRunes "noChange") = some (strRunes "nochange") := by decide
example : sanitizeMetricName (strRunes "/cpu/classes/gc/mark/assist:cpu-seconds")
    = some (strRunes "cpu_classes_gc_mark_assist_cpu_seconds") := by decide
example : sanitizeMetricName (strRunes "_") = none := by decide
example : sanitizeMetricName (strRunes "") = none := by decide

/-! ### Structural properties of trimming -/

lemma trimUnderscore_nil : trimUnderscore [] = [] := rfl

/-- `strings.Trim(s, "_")` returns the empty string exactly when every rune
of `s` is an underscore. -/
lemma trimUnderscore_eq_nil_iff (s : List ℕ) :
    trimUnderscore s = [] ↔ ∀ x ∈ s, x = underscoreRune := by
  unfold trimUnderscore
  rw [List.reverse_eq_nil_iff, List.dropWhile_eq_nil_iff]
  constructor
  · intro h x hx
    have hx2 : x ∈ List.takeWhile (fun a => decide (a = underscoreRune)) s ∨
        x ∈ List.dropWhile (fun a => decide (a = underscoreRune)) s := by
      rw [← List.mem_append, List.takeWhile_append_dropWhile]
      exact hx
    rcases hx2 with hmem | hmem
    · simpa using List.mem_takeWhile_imp hmem
    · simpa using h x (List.mem_reverse.2 hmem)
  · intro h x hx
    simpa using h x ((List.dropWhile_sublist _).subset (List.mem_reverse.1 hx))

/-- Elements of the trimmed list come from the original list. -/
lemma mem_of_mem_trimUnderscore {s : List ℕ} {x : ℕ} (h : x ∈ trimUnderscore s) :
    x ∈ s := by
  unfold trimUnderscore at h
  exact (List.dropWhile_sublist _).subset
    (List.mem_reverse.1 ((List.dropWhile_sublist _).subset (List.mem_reverse.1 h)))

/-- The head of a `dropWhile` result fails the dropped predicate. -/
lemma head?_dropWhile_ne (p : ℕ → Bool) (l : List ℕ) {x : ℕ}
    (h : (l.dropWhile p).head? = some x) : p x = false := by
  induction l with
  | nil => simp at h
  | cons a t ih =>
    rw [List.dropWhile_cons] at h
    by_cases hp : p a = true
    · rw [if_pos hp] at h
      exact ih h
    · rw [if_neg hp] at h
      simp only [List.head?_cons, Option.some.injEq] at h
      subst h
      exact Bool.not_eq_true _ ▸ hp

/-- `dropWhile` removes a prefix, so a nonempty result keeps the last
element. -/
lemma getLast?_dropWhile_of_ne_nil (p : ℕ → Bool) (l : List ℕ)
    (hne : l.dropWhile p ≠ []) : (l.dropWhile p).getLast? = l.getLast? := by
  induction l with
  | nil => exact absurd rfl hne
  | cons a t ih =>
    rw [List.dropWhile_cons] at hne ⊢
    by_cases hp : p a = true
    · rw [if_pos hp] at hne ⊢
      rw [ih hne]
      cases t with
      | nil => exact absurd rfl hne
      | cons b u => rw [List.getLast?_cons_cons]
    · rw [if_neg hp]

/-- The trimmed list does not end in an underscore. -/
lemma getLast?_trimUnderscore_ne {s : List ℕ} {x : ℕ}
    (h : (trimUnderscore s).getLast? = some x) : x ≠ underscoreRune := by
  unfold trimUnderscore at h
  rw [List.getLast?_reverse] at h
  have hx := head?_dropWhile_ne _ _ h
  simpa using hx

/-- The trimmed list does not start with an underscore either. -/
lemma head?_trimUnderscore_ne {s : List ℕ} {x : ℕ}
    (h : (trimUnderscore s).head? = some x) : x ≠ underscoreRune := by
  unfold trimUnderscore at h
  rw [List.head?_reverse] at h
  have hne : List.dropWhile (fun a => decide (a = underscoreRune))
      ((List.dropWhile (fun a => decide (a = underscoreRune)) s).reverse) ≠ [] := by
    intro h0
    rw [h0] at h
    cases h
  rw [getLast?_dropWhile_of_ne_nil _ _ hne, List.getLast?_reverse] at h
  have hx := head?_dropWhile_ne _ _ h
  simpa using hx

/-- Mapping a function that fixes every element of a list is the identity. -/
lemma map_eq_self_of_forall {f : ℕ → ℕ} {l : List ℕ} (h : ∀ x ∈ l, f x = x) :
    l.map f = l := by
  induction l with
  | nil => rfl
  | cons a t ih =>
    simp only [List.map_cons, h a (List.mem_cons_self a t)]
    rw [ih fun x hx => h x (List.mem_cons_of_mem a hx)]

/-- If a list neither starts nor ends with an underscore, trimming is the
identity. -/
lemma trimUnderscore_eq_self {s : List ℕ}
    (hh : s.head? ≠ some underscoreRune) (hl : s.getLast? ≠ some underscoreRune) :
    trimUnderscore s = s := by
  unfold trimUnderscore
  match hs : s with
  | [] => rfl
  | a :: t =>
    have ha : a ≠ underscoreRune := fun h => hh (by simp [h])
    rw [List.dropWhile_cons, if_neg (by simp [ha])]
    match hr : (a :: t).reverse with
    | [] => simp at hr
    | b :: u =>
      have hb : b ≠ underscoreRune := by
        intro h
        apply hl
        rw [← List.head?_reverse, hr, h]
        rfl
      rw [List.dropWhile_cons, if_neg (by simp [hb]), ← hr, List.reverse_reverse]

/-! ### Generic properties of the sanitization pipeline -/

lemma sanitizeReplaceU_underscore (U : GoUnicode) :
    sanitizeReplaceU U 95 = 95 := by
  unfold sanitizeReplaceU
  have h : (U.isLetter 95 || U.isDigit 95 || decide (95 = underscoreRune)) = true := by
    simp [underscoreRune]
  rw [if_pos h]

lemma sanitizeReplaceU_o (U : GoUnicode) : sanitizeReplaceU U 111 = 111 := by
  unfold sanitizeReplaceU
  rw [U.isLetter_o]
  rfl

/-- The replacement step is idempotent: its output always passes its own
keep-test. -/
lemma sanitizeReplaceU_idem (U : GoUnicode) (r : ℕ) :
    sanitizeReplaceU U (sanitizeReplaceU U r) = sanitizeReplaceU U r := by
  unfold sanitizeReplaceU
  by_cases h : (U.isLetter r || U.isDigit r || decide (r = underscoreRune)) = true
  · rw [if_pos h, if_pos h]
  · rw [if_neg h]
    have h2 : (U.isLetter underscoreRune || U.isDigit underscoreRune
        || decide (underscoreRune = underscoreRune)) = true := by simp
    rw [if_pos h2]

/-- Every element of the replaced list is fixed by a second lower-case pass
and by a second replacement pass. -/
lemma stableU_of_mem_replaced (U : GoUnicode) {x : ℕ} {name : List ℕ}
    (hx : x ∈ (name.map U.toLower).map (sanitizeReplaceU U)) :
    U.toLower x = x ∧ sanitizeReplaceU U x = x := by
  rcases List.mem_map.1 hx with ⟨a, ha, rfl⟩
  rcases List.mem_map.1 ha with ⟨r, _hr, rfl⟩
  constructor
  · unfold sanitizeReplaceU
    split_ifs with h
    · exact U.toLower_idem r
    · exact U.toLower_underscore
  · exact sanitizeReplaceU_idem U (U.toLower r)

/-- A replaced rune collapses to an underscore exactly when the original
rune is neither a letter nor a digit. -/
lemma sanitizeReplaceU_toLower_eq_underscore_iff (U : GoUnicode) (r : ℕ) :
    sanitizeReplaceU U (U.toLower r) = underscoreRune ↔
      (U.isLetter r = false ∧ U.isDigit r = false) := by
  have hL := U.isLetter_toLower r
  have hD := U.isDigit_toLower r
  unfold sanitizeReplaceU
  split_ifs with hkeep
  · constructor
    · intro h
      rw [h] at hL hD
      refine ⟨?_, ?_⟩
      · rw [← hL]
        exact U.isLetter_underscore
      · rw [← hD]
        exact U.isDigit_underscore
    · rintro ⟨hl, hd⟩
      have h1 : U.isLetter (U.toLower r) = false := by rw [hL]; exact hl
      have h2 : U.isDigit (U.toLower r) = false := by rw [hD]; exact hd
      rw [h1, h2] at hkeep
      simpa using hkeep
  · rw [Bool.not_eq_true, Bool.or_eq_false_iff, Bool.or_eq_false_iff] at hkeep
    refine iff_of_true rfl ⟨?_, ?_⟩
    · rw [← hL]
      exact hkeep.1.1
    · rw [← hD]
      exact hkeep.1.2

lemma utf8FirstByte_of_lt_128 {r : ℕ} (h : r < 128) : utf8FirstByte r = r := by
  unfold utf8FirstByte
  rw [if_pos h]

lemma utf8FirstByte_oRune : utf8FirstByte 111 = 111 := by decide

lemma goToLower_lt_128 {r : ℕ} (h : r < 128) : goToLower r < 128 := by
  unfold goToLower
  split_ifs <;> omega

/-- Applying the whole sanitization pipeline to a list that is already fully
sanitized (stable under lower-casing and replacement, trim-invariant, and
whose first byte is a letter) returns the list unchanged. -/
lemma sanitizeMetricNameU_eq_self (U : GoUnicode) {c : ℕ} {rest : List ℕ}
    (hmapL : (c :: rest).map U.toLower = c :: rest)
    (hmapR : (c :: rest).map (sanitizeReplaceU U) = c :: rest)
    (htrim : trimUnderscore (c :: rest) = c :: rest)
    (hc : U.isLetter (utf8FirstByte c) = true) :
    sanitizeMetricNameU U (c :: rest) = some (c :: rest) := by
  unfold sanitizeMetricNameU
  simp only [hmapL, hmapR, htrim, hc, Bool.not_true, Bool.false_eq_true, if_false]

/-- The trimmed replaced list, when nonempty, has a last element that is not
an underscore (`getLast?_trimUnderscore_ne` packaged for a cons). -/
lemma getLast?_ne_underscore_of_trim {R c : _} {rest : List ℕ}
    (htrim : trimUnderscore R = c :: rest) :
    (c :: rest).getLast? ≠ some underscoreRune := by
  intro hcontra
  cases hgl : (c :: rest).getLast? with
  | none => simp [hgl] at hcontra
  | some z =>
    rw [hgl] at hcontra
    have hz : z ≠ underscoreRune :=
      getLast?_trimUnderscore_ne (s := R) (htrim ▸ hgl)
    exact hz (Option.some.inj hcontra)

/-- C10: over every character semantics satisfying the Unicode facts — in
particular over Go's real tables — `SanitizeMetricName` returns normally
exactly when its input has at least one letter or digit; on all other
inputs (all runes underscores or replaced, including the empty string) the
trim step yields the empty string and the Go code indexes `name[0]` out of
range, i.e. panics (modelled by `none`). -/
theorem sanitizeMetricName_none_iff_no_letter_or_digit (U : GoUnicode)
    (name : List ℕ) :
    sanitizeMetricNameU U name = none ↔
      ∀ r ∈ name, U.isLetter r = false ∧ U.isDigit r = false := by
  have hmain : sanitizeMetricNameU U name = none ↔
      trimUnderscore ((name.map U.toLower).map (sanitizeReplaceU U)) = [] := by
    unfold sanitizeMetricNameU
    dsimp only
    cases h : trimUnderscore ((name.map U.toLower).map (sanitizeReplaceU U)) with
    | nil =>
      exact iff_of_true rfl rfl
    | cons c rest =>
      constructor
      · intro h2
        exact absurd h2 (by simp)
      · intro h2
        cases h2
  rw [hmain, trimUnderscore_eq_nil_iff]
  constructor
  · intro h r hr
    exact (sanitizeReplaceU_toLower_eq_underscore_iff U r).1
      (h _ (List.mem_map_of_mem _ (List.mem_map_of_mem _ hr)))
  · intro h x hx
    rcases List.mem_map.1 hx with ⟨a, ha, rfl⟩
    rcases List.mem_map.1 ha with ⟨r, hr, rfl⟩
    exact (sanitizeReplaceU_toLower_eq_underscore_iff U r).2 (h r hr)

/-- Witness for C10 at the ASCII semantics and a concrete input: an
all-underscore name panics. -/
theorem sanitizeMetricName_none_iff_no_letter_or_digit_witness :
    sanitizeMetricName (strRunes "__") = none :=
  (sanitizeMetricName_none_iff_no_letter_or_digit asciiUnicode
    (strRunes "__")).mpr (by decide)

/-- C8: metric-name sanitization is idempotent, over every character
semantics satisfying the Unicode facts — in particular over Go's real
tables.  Stated through `Option.bind` so that panicking inputs (modelled by
`none`) are covered as well: composing the sanitizer with itself gives the
same partial function. -/
theorem sanitizeMetricName_idempotent (U : GoUnicode) (name : List ℕ) :
    (sanitizeMetricNameU U name).bind (sanitizeMetricNameU U)
      = sanitizeMetricNameU U name := by
  cases hs : sanitizeMetricNameU U name with
  | none => rfl
  | some y =>
    rw [Option.some_bind]
    have hstable : ∀ x ∈ trimUnderscore ((name.map U.toLower).map (sanitizeReplaceU U)),
        U.toLower x = x ∧ sanitizeReplaceU U x = x := fun x hx =>
      stableU_of_mem_replaced U (mem_of_mem_trimUnderscore hx)
    unfold sanitizeMetricNameU at hs
    dsimp only at hs
    cases htrim : trimUnderscore ((name.map U.toLower).map (sanitizeReplaceU U)) with
    | nil =>
      rw [htrim] at hs
      cases hs
    | cons c rest =>
      rw [htrim] at hs
      have hy : (if !U.isLetter (utf8FirstByte c) then 111 :: 95 :: c :: rest
          else c :: rest) = y := Option.some.inj hs
      have hmapL0 : (c :: rest).map U.toLower = c :: rest :=
        map_eq_self_of_forall fun x hx => (hstable x (by rw [htrim]; exact hx)).1
      have hmapR0 : (c :: rest).map (sanitizeReplaceU U) = c :: rest :=
        map_eq_self_of_forall fun x hx => (hstable x (by rw [htrim]; exact hx)).2
      have hlast : (c :: rest).getLast? ≠ some underscoreRune :=
        getLast?_ne_underscore_of_trim htrim
      have hheadc : c ≠ underscoreRune :=
        head?_trimUnderscore_ne (x := c) (by rw [htrim]; rfl)
      subst hy
      by_cases hc : U.isLetter (utf8FirstByte c) = true
      · rw [hc]
        simp only [Bool.not_true, Bool.false_eq_true, if_false]
        refine sanitizeMetricNameU_eq_self U hmapL0 hmapR0 ?_ hc
        refine trimUnderscore_eq_self ?_ hlast
        simp only [List.head?_cons, Ne, Option.some.injEq]
        exact hheadc
      · rw [Bool.not_eq_true] at hc
        rw [hc]
        simp only [Bool.not_false, if_true]
        have hmapL : (111 :: 95 :: c :: rest).map U.toLower
            = 111 :: 95 :: c :: rest := by
          rw [List.map_cons, List.map_cons, hmapL0, U.toLower_o, U.toLower_underscore]
        have hmapR : (111 :: 95 :: c :: rest).map (sanitizeReplaceU U)
            = 111 :: 95 :: c :: rest := by
          rw [List.map_cons, List.map_cons, hmapR0, sanitizeReplaceU_o U,
            sanitizeReplaceU_underscore U]
        refine sanitizeMetricNameU_eq_self U hmapL hmapR ?_ ?_
        · refine trimUnderscore_eq_self ?_ ?_
          · simp only [List.head?_cons, Ne, Option.some.injEq]
            decide
          · rw [List.getLast?_cons_cons, List.getLast?_cons_cons]
            exact hlast
        · rw [utf8FirstByte_oRune]
          exact U.isLetter_o

/-- C7 counterexample: on the input `"_"` (no letter or digit anywhere) the
Go function does not return at all — the trim step yields the empty string
and `name[0]` panics (modelled by `none`) — so "for every input name,
SanitizeMetricName returns …" is false as stated. -/
theorem sanitizeMetricName_not_total :
    sanitizeMetricName (strRunes "_") = none ∧
      sanitizeMetricName (strRunes "_")
        ≠ some (specSanitizeMetricName (strRunes "_")) := by
  constructor
  · decide
  · decide

/-- C7, amended: for every ASCII input (each rune below 128, the domain on
which the modelled character classes are exactly Go's) that contains at
least one letter or digit, `SanitizeMetricName` returns exactly the string
described by the spec rule (lower-case, replace, trim, conditional `o_`
prefix — for an ASCII string the first byte *is* the first character, so
the code's byte test agrees with the rule's character test), and the three
concrete examples of the claim hold. -/
theorem sanitizeMetricName_follows_spec_rule :
    (∀ name : List ℕ, (∀ r ∈ name, r < 128) →
      (∃ r ∈ name, goIsLetter r = true ∨ goIsDigit r = true) →
      sanitizeMetricName name = some (specSanitizeMetricName name)) ∧
    sanitizeMetricName (strRunes "1start") = some (strRunes "o_1start") ∧
    sanitizeMetricName (strRunes "noChange") = some (strRunes "nochange") ∧
    sanitizeMetricName (strRunes "/cpu/classes/gc/mark/assist:cpu-seconds")
      = some (strRunes "cpu_classes_gc_mark_assist_cpu_seconds") := by
  refine ⟨?_, by decide, by decide, by decide⟩
  intro name hascii hex
  have hne : trimUnderscore ((name.map asciiUnicode.toLower).map
      (sanitizeReplaceU asciiUnicode)) ≠ [] := by
    rw [Ne, trimUnderscore_eq_nil_iff]
    intro hall
    rcases hex with ⟨r, hr, hor⟩
    have hu := hall _ (List.mem_map_of_mem _ (List.mem_map_of_mem _ hr))
    rw [sanitizeReplaceU_toLower_eq_underscore_iff] at hu
    have hu1 : goIsLetter r = false := hu.1
    have hu2 : goIsDigit r = false := hu.2
    rcases hor with h | h
    · rw [hu1] at h
      cases h
    · rw [hu2] at h
      cases h
  have hmem_lt : ∀ x ∈ (name.map asciiUnicode.toLower).map
      (sanitizeReplaceU asciiUnicode), x < 128 := by
    intro x hx
    rcases List.mem_map.1 hx with ⟨a, ha, rfl⟩
    rcases List.mem_map.1 ha with ⟨r, hr, rfl⟩
    have hlow : asciiUnicode.toLower r < 128 := goToLower_lt_128 (hascii r hr)
    unfold sanitizeReplaceU
    split_ifs
    · exact hlow
    · simp [underscoreRune]
  unfold sanitizeMetricName sanitizeMetricNameU specSanitizeMetricName
  dsimp only
  cases htrim : trimUnderscore ((name.map asciiUnicode.toLower).map
      (sanitizeReplaceU asciiUnicode)) with
  | nil => exact absurd htrim hne
  | cons c rest =>
    have hc128 : c < 128 := hmem_lt c
      (mem_of_mem_trimUnderscore (by rw [htrim]; exact List.mem_cons_self c rest))
    show some (if !asciiUnicode.isLetter (utf8FirstByte c) then 111 :: 95 :: c :: rest
        else c :: rest)
      = some (if !asciiUnicode.isLetter ((c :: rest).headD underscoreRune)
        then 111 :: 95 :: c :: rest else c :: rest)
    rw [List.headD_cons, utf8FirstByte_of_lt_128 hc128]

/-- Witness for the amended C7 at a concrete ASCII input. -/
theorem sanitizeMetricName_follows_spec_rule_witness :
    sanitizeMetricName (strRunes "abc9") = some (specSanitizeMetricName (strRunes "abc9")) :=
  sanitizeMetricName_follows_spec_rule.1 (strRunes "abc9") (by decide)
    ⟨97, by decide, Or.inl (by decide)⟩
/-! ## internal/metrics/prom: Instrument Base and wrappers
(src/unnamed/part_011, src/internal/metrics/prom/counter.go,
src/internal/metrics/prom/gauge.go,
src/internal/metrics/prom/updown_counter.go and the Histogram part of
src/unnamed/part_011).

Backend handles (`metric.Float64Counter`, …) are opaque sinks; a call that
reaches the backend is modelled by appending the forwarded value together
with the attribute snapshot (`metric.WithAttributes(base.tags...)`) to a
`backend…` list.  `float64` measurement values are modelled as `ℚ`: the
wrappers only pass values through (the sole arithmetic is the exact
divisions `m / 1000` and duration-to-seconds conversion, which the spec
requires to be exact). -/

/-- `prom.Base`: name, tags and the one-shot activation latch (`completed`,
an `int32` that is only ever 0 or 1). -/
structure Base where
  name : List ℕ
  tags : List (String × String)
  completed : Int
  deriving DecidableEq

/-- `Base.ready`: `atomic.CompareAndSwapInt32(&b.completed, 0, 1)` — returns
whether this call performed the 0 → 1 flip, together with the updated
state. -/
def Base.ready (b : Base) : Bool × Base :=
  if b.completed = 0 then (true, { b with completed := 1 }) else (false, b)

/-- `Base.AddTag`: append `attribute.String(key, value)` to the tag list. -/
def Base.addTag (b : Base) (key value : String) : Base :=
  { b with tags := b.tags ++ [(key, value)] }

/-- `prom.Counter`: a `Base` plus the backend `metric.Float64Counter`,
modelled by the list of `(delta, attribute snapshot)` pairs that reached
`counter.Add`. -/
structure Counter where
  base : Base
  backendAdds : List (ℚ × List (String × String))
  deriving DecidableEq

/-- `prom.NewCounter`: fresh `Base` with the given name, latch inactive. -/
def Counter.new (name : List ℕ) : Counter :=
  { base := { name := name, tags := [], completed := 0 }, backendAdds := [] }

/-- `Counter.Incr`: gated by `base.ready()`; on success forwards
`(delta, tags)` to the backend. -/
def Counter.incr (c : Counter) (delta : ℚ) : Counter :=
  let r := c.base.ready
  if r.1 then { base := r.2, backendAdds := c.backendAdds ++ [(delta, r.2.tags)] }
  else { c with base := r.2 }

/-- `Counter.IncrOne`: `Incr` with a fixed delta of 1. -/
def Counter.incrOne (c : Counter) : Counter :=
  c.incr 1

/-- `Counter.AddTag` (returns the instrument for chaining). -/
def Counter.addTag (c : Counter) (key value : String) : Counter :=
  { c with base := c.base.addTag key value }

/-- `prom.UpDownCounter`: a `Base` plus the backend
`metric.Float64UpDownCounter`. -/
structure UpDownCounter where
  base : Base
  backendAdds : List (ℚ × List (String × String))
  deriving DecidableEq

def UpDownCounter.new (name : List ℕ) : UpDownCounter :=
  { base := { name := name, tags := [], completed := 0 }, backendAdds := [] }

/-- `UpDownCounter.Update`: gated by `base.ready()`; on success forwards
`(delta, tags)` to `counter.Add`. -/
def UpDownCounter.update (c : UpDownCounter) (delta : ℚ) : UpDownCounter :=
  let r := c.base.ready
  if r.1 then { base := r.2, backendAdds := c.backendAdds ++ [(delta, r.2.tags)] }
  else { c with base := r.2 }

/-- `UpDownCounter.IncrOne`: `Update` with delta 1. -/
def UpDownCounter.incrOne (c : UpDownCounter) : UpDownCounter :=
  c.update 1

/-- `UpDownCounter.DecrOne`: `Update` with delta -1. -/
def UpDownCounter.decrOne (c : UpDownCounter) : UpDownCounter :=
  c.update (-1)

def UpDownCounter.addTag (c : UpDownCounter) (key value : String) : UpDownCounter :=
  { c with base := c.base.addTag key value }

/-- `prom.Gauge`: a `Base` plus the backend `metric.Float64Gauge`. -/
structure Gauge where
  base : Base
  backendRecords : List (ℚ × List (String × String))
  deriving DecidableEq

def Gauge.new (name : List ℕ) : Gauge :=
  { base := { name := name, tags := [], completed := 0 }, backendRecords := [] }

/-- `Gauge.Update`: gated by `base.ready()`; on success forwards
`(v, tags)` to `gauge.Record`. -/
def Gauge.update (g : Gauge) (v : ℚ) : Gauge :=
  let r := g.base.ready
  if r.1 then { base := r.2, backendRecords := g.backendRecords ++ [(v, r.2.tags)] }
  else { g with base := r.2 }

def Gauge.addTag (g : Gauge) (key value : String) : Gauge :=
  { g with base := g.base.addTag key value }

/-- `prom.Histogram`: a `Base` plus the backend `metric.Float64Histogram`. -/
structure Histogram where
  base : Base
  backendRecords : List (ℚ × List (String × String))
  deriving DecidableEq

def Histogram.new (name : List ℕ) : Histogram :=
  { base := { name := name, tags := [], completed := 0 }, backendRecords := [] }

/-- `Histogram.UpdateInSeconds`: gated by `base.ready()`; on success
forwards `(s, tags)` to `histogram.Record`. -/
def Histogram.updateInSeconds (h : Histogram) (s : ℚ) : Histogram :=
  let r := h.base.ready
  if r.1 then { base := r.2, backendRecords := h.backendRecords ++ [(s, r.2.tags)] }
  else { h with base := r.2 }

/-- `Histogram.Update`: converts the `time.Duration` to seconds
(`d.Seconds()`, the argument here) and delegates to `UpdateInSeconds`. -/
def Histogram.update (h : Histogram) (durationSeconds : ℚ) : Histogram :=
  h.updateInSeconds durationSeconds

/-- `Histogram.UpdateInMilliseconds`: `UpdateInSeconds(m / 1000)`. -/
def Histogram.updateInMilliseconds (h : Histogram) (m : ℚ) : Histogram :=
  h.updateInSeconds (m / 1000)

/-- `Histogram.UpdateSine`: records `time.Now() - start` in seconds; the
elapsed wall-clock time is a parameter of the model. -/
def Histogram.updateSine (h : Histogram) (elapsedSeconds : ℚ) : Histogram :=
  h.updateInSeconds elapsedSeconds

/-- `Histogram.Time`: runs the function and records its elapsed wall-clock
time through `UpdateSine`; the elapsed time is a parameter of the model. -/
def Histogram.timeRecord (h : Histogram) (elapsedSeconds : ℚ) : Histogram :=
  h.updateSine elapsedSeconds

def Histogram.addTag (h : Histogram) (key value : String) : Histogram :=
  { h with base := h.base.addTag key value }

/-! ### Recording-call sequences and the activation latch -/

/-- A recording call on a Counter. -/
inductive CounterCall
  | incr (delta : ℚ)
  | incrOne
  deriving DecidableEq

def Counter.applyCall (c : Counter) : CounterCall → Counter
  | .incr d => c.incr d
  | .incrOne => c.incrOne

def runCounter (c : Counter) (calls : List CounterCall) : Counter :=
  calls.foldl Counter.applyCall c

/-- A recording call on an UpDownCounter. -/
inductive UpDownCall
  | update (delta : ℚ)
  | incrOne
  | decrOne
  deriving DecidableEq

def UpDownCounter.applyCall (c : UpDownCounter) : UpDownCall → UpDownCounter
  | .update d => c.update d
  | .incrOne => c.incrOne
  | .decrOne => c.decrOne

def runUpDownCounter (c : UpDownCounter) (calls : List UpDownCall) : UpDownCounter :=
  calls.foldl UpDownCounter.applyCall c

/-- A recording call on a Gauge. -/
inductive GaugeCall
  | update (v : ℚ)
  deriving DecidableEq

def Gauge.applyCall (g : Gauge) : GaugeCall → Gauge
  | .update v => g.update v

def runGauge (g : Gauge) (calls : List GaugeCall) : Gauge :=
  calls.foldl Gauge.applyCall g

/-- A recording call on a Histogram.  `update` carries the duration already
converted to seconds; `updateSine` and `timeRecord` carry the measured
elapsed wall-clock seconds. -/
inductive HistogramCall
  | update (durationSeconds : ℚ)
  | updateInSeconds (s : ℚ)
  | updateInMilliseconds (m : ℚ)
  | updateSine (elapsedSeconds : ℚ)
  | timeRecord (elapsedSeconds : ℚ)
  deriving DecidableEq

def Histogram.applyCall (h : Histogram) : HistogramCall → Histogram
  | .update d => h.update d
  | .updateInSeconds s => h.updateInSeconds s
  | .updateInMilliseconds m => h.updateInMilliseconds m
  | .updateSine e => h.updateSine e
  | .timeRecord e => h.timeRecord e

def runHistogram (h : Histogram) (calls : List HistogramCall) : Histogram :=
  calls.foldl Histogram.applyCall h

/-! Latch lemmas: once `completed = 1`, every recording call is the
identity; a call on a fresh instrument flips the latch and forwards exactly
one value. -/

lemma Counter.incr_of_completed {c : Counter} (h : c.base.completed = 1) (d : ℚ) :
    c.incr d = c := by
  unfold Counter.incr Base.ready
  have hne : ¬ c.base.completed = 0 := by omega
  simp [hne]

lemma counterApplyCall_of_completed {c : Counter} (h : c.base.completed = 1)
    (k : CounterCall) : c.applyCall k = c := by
  cases k with
  | incr d => exact c.incr_of_completed h d
  | incrOne => exact c.incr_of_completed h 1

lemma counterApplyCall_of_fresh {c : Counter} (h : c.base.completed = 0)
    (k : CounterCall) :
    (c.applyCall k).base.completed = 1 ∧
      (c.applyCall k).backendAdds.length = c.backendAdds.length + 1 := by
  have hincr : ∀ d : ℚ, (c.incr d).base.completed = 1 ∧
      (c.incr d).backendAdds.length = c.backendAdds.length + 1 := by
    intro d
    unfold Counter.incr Base.ready
    simp [h]
  cases k with
  | incr d => exact hincr d
  | incrOne => exact hincr 1

lemma runCounter_of_completed {c : Counter} (h : c.base.completed = 1)
    (calls : List CounterCall) : runCounter c calls = c := by
  induction calls with
  | nil => rfl
  | cons k ks ih =>
    unfold runCounter
    rw [List.foldl_cons, counterApplyCall_of_completed h k]
    exact ih

lemma upDownUpdate_of_completed {c : UpDownCounter}
    (h : c.base.completed = 1) (d : ℚ) : c.update d = c := by
  unfold UpDownCounter.update Base.ready
  have hne : ¬ c.base.completed = 0 := by omega
  simp [hne]

lemma upDownApplyCall_of_completed {c : UpDownCounter}
    (h : c.base.completed = 1) (k : UpDownCall) : c.applyCall k = c := by
  cases k with
  | update d => exact upDownUpdate_of_completed h d
  | incrOne => exact upDownUpdate_of_completed h 1
  | decrOne => exact upDownUpdate_of_completed h (-1)

lemma upDownApplyCall_of_fresh {c : UpDownCounter}
    (h : c.base.completed = 0) (k : UpDownCall) :
    (c.applyCall k).base.completed = 1 ∧
      (c.applyCall k).backendAdds.length = c.backendAdds.length + 1 := by
  have hupd : ∀ d : ℚ, (c.update d).base.completed = 1 ∧
      (c.update d).backendAdds.length = c.backendAdds.length + 1 := by
    intro d
    unfold UpDownCounter.update Base.ready
    simp [h]
  cases k with
  | update d => exact hupd d
  | incrOne => exact hupd 1
  | decrOne => exact hupd (-1)

lemma runUpDownCounter_of_completed {c : UpDownCounter}
    (h : c.base.completed = 1) (calls : List UpDownCall) :
    runUpDownCounter c calls = c := by
  induction calls with
  | nil => rfl
  | cons k ks ih =>
    unfold runUpDownCounter
    rw [List.foldl_cons, upDownApplyCall_of_completed h k]
    exact ih

lemma gaugeUpdate_of_completed {g : Gauge} (h : g.base.completed = 1) (v : ℚ) :
    g.update v = g := by
  unfold Gauge.update Base.ready
  have hne : ¬ g.base.completed = 0 := by omega
  simp [hne]

lemma gaugeApplyCall_of_completed {g : Gauge} (h : g.base.completed = 1)
    (k : GaugeCall) : g.applyCall k = g := by
  cases k with
  | update v => exact gaugeUpdate_of_completed h v

lemma gaugeApplyCall_of_fresh {g : Gauge} (h : g.base.completed = 0)
    (k : GaugeCall) :
    (g.applyCall k).base.completed = 1 ∧
      (g.applyCall k).backendRecords.length = g.backendRecords.length + 1 := by
  cases k with
  | update v =>
    unfold Gauge.applyCall Gauge.update Base.ready
    simp [h]

lemma runGauge_of_completed {g : Gauge} (h : g.base.completed = 1)
    (calls : List GaugeCall) : runGauge g calls = g := by
  induction calls with
  | nil => rfl
  | cons k ks ih =>
    unfold runGauge
    rw [List.foldl_cons, gaugeApplyCall_of_completed h k]
    exact ih

lemma Histogram.updateInSeconds_of_completed {h : Histogram}
    (hc : h.base.completed = 1) (s : ℚ) : h.updateInSeconds s = h := by
  unfold Histogram.updateInSeconds Base.ready
  have hne : ¬ h.base.completed = 0 := by omega
  simp [hne]

lemma histogramApplyCall_of_completed {h : Histogram} (hc : h.base.completed = 1)
    (k : HistogramCall) : h.applyCall k = h := by
  cases k with
  | update d => exact h.updateInSeconds_of_completed hc d
  | updateInSeconds s => exact h.updateInSeconds_of_completed hc s
  | updateInMilliseconds m => exact h.updateInSeconds_of_completed hc (m / 1000)
  | updateSine e => exact h.updateInSeconds_of_completed hc e
  | timeRecord e => exact h.updateInSeconds_of_completed hc e

lemma histogramApplyCall_of_fresh {h : Histogram} (hc : h.base.completed = 0)
    (k : HistogramCall) :
    (h.applyCall k).base.completed = 1 ∧
      (h.applyCall k).backendRecords.length = h.backendRecords.length + 1 := by
  have hupd : ∀ s : ℚ, (h.updateInSeconds s).base.completed = 1 ∧
      (h.updateInSeconds s).backendRecords.length = h.backendRecords.length + 1 := by
    intro s
    unfold Histogram.updateInSeconds Base.ready
    simp [hc]
  cases k with
  | update d => exact hupd d
  | updateInSeconds s => exact hupd s
  | updateInMilliseconds m => exact hupd (m / 1000)
  | updateSine e => exact hupd e
  | timeRecord e => exact hupd e

lemma runHistogram_of_completed {h : Histogram} (hc : h.base.completed = 1)
    (calls : List HistogramCall) : runHistogram h calls = h := by
  induction calls with
  | nil => rfl
  | cons k ks ih =>
    unfold runHistogram
    rw [List.foldl_cons, histogramApplyCall_of_completed hc k]
    exact ih

/-- C1: exactly-once forwarding.  For each of the four instrument wrappers,
freshly constructed with an inactive latch, any nonempty sequence of
recording calls forwards exactly one value to the backend handle: the first
call flips the latch and is forwarded, every later call is a no-op. -/
theorem activation_latch_exactly_once_forwarding :
    (∀ (name : List ℕ) (calls : List CounterCall), calls ≠ [] →
      (runCounter (Counter.new name) calls).backendAdds.length = 1) ∧
    (∀ (name : List ℕ) (calls : List UpDownCall), calls ≠ [] →
      (runUpDownCounter (UpDownCounter.new name) calls).backendAdds.length = 1) ∧
    (∀ (name : List ℕ) (calls : List GaugeCall), calls ≠ [] →
      (runGauge (Gauge.new name) calls).backendRecords.length = 1) ∧
    (∀ (name : List ℕ) (calls : List HistogramCall), calls ≠ [] →
      (runHistogram (Histogram.new name) calls).backendRecords.length = 1) := by
  refine ⟨?_, ?_, ?_, ?_⟩
  · intro name calls hne
    match calls with
    | [] => exact absurd rfl hne
    | k :: ks =>
      have hfresh := counterApplyCall_of_fresh (c := Counter.new name) rfl k
      unfold runCounter
      rw [List.foldl_cons]
      have hrun := runCounter_of_completed hfresh.1 ks
      unfold runCounter at hrun
      rw [hrun, hfresh.2]
      rfl
  · intro name calls hne
    match calls with
    | [] => exact absurd rfl hne
    | k :: ks =>
      have hfresh := upDownApplyCall_of_fresh (c := UpDownCounter.new name) rfl k
      unfold runUpDownCounter
      rw [List.foldl_cons]
      have hrun := runUpDownCounter_of_completed hfresh.1 ks
      unfold runUpDownCounter at hrun
      rw [hrun, hfresh.2]
      rfl
  · intro name calls hne
    match calls with
    | [] => exact absurd rfl hne
    | k :: ks =>
      have hfresh := gaugeApplyCall_of_fresh (g := Gauge.new name) rfl k
      unfold runGauge
      rw [List.foldl_cons]
      have hrun := runGauge_of_completed hfresh.1 ks
      unfold runGauge at hrun
      rw [hrun, hfresh.2]
      rfl
  · intro name calls hne
    match calls with
    | [] => exact absurd rfl hne
    | k :: ks =>
      have hfresh := histogramApplyCall_of_fresh (h := Histogram.new name) rfl k
      unfold runHistogram
      rw [List.foldl_cons]
      have hrun := runHistogram_of_completed hfresh.1 ks
      unfold runHistogram at hrun
      rw [hrun, hfresh.2]
      rfl

/-- Witness for C1: two `IncrOne` calls on a fresh Counter (and the analogous
two-call sequences on the other kinds) forward exactly one backend value. -/
theorem activation_latch_exactly_once_forwarding_witness :
    (runCounter (Counter.new (strRunes "req_total"))
      [CounterCall.incrOne, CounterCall.incrOne]).backendAdds.length = 1 ∧
    (runUpDownCounter (UpDownCounter.new (strRunes "inflight"))
      [UpDownCall.incrOne, UpDownCall.decrOne]).backendAdds.length = 1 ∧
    (runGauge (Gauge.new (strRunes "heap"))
      [GaugeCall.update 3, GaugeCall.update 4]).backendRecords.length = 1 ∧
    (runHistogram (Histogram.new (strRunes "latency"))
      [HistogramCall.updateInSeconds 2, HistogramCall.updateInMilliseconds 5]
      ).backendRecords.length = 1 :=
  ⟨activation_latch_exactly_once_forwarding.1 _ _ (by decide),
   activation_latch_exactly_once_forwarding.2.1 _ _ (by decide),
   activation_latch_exactly_once_forwarding.2.2.1 _ _ (by decide),
   activation_latch_exactly_once_forwarding.2.2.2 _ _ (by decide)⟩

/-! ## internal/metrics/nop and internal/meter/prom: no-op instruments and
the Prometheus Meter Controller (src/internal/metrics/nop/counter.go,
gauge.go, histgram.go and src/unnamed/part_009).

An instrument handed out by the factory is either the stateless no-op
singleton or a live prom wrapper.  The meter state models the `running`
int32 flag, whether the `signalListener` goroutine is alive and blocked in
its `select` (`listenerParked`), and an event log capturing the injected
info/error log sinks (`cfg.WriteInfoOrNot` / `cfg.WriteErrorOrNot`) and the
start/stop side effects on the runtime collector and the meter servers.

The `onCh`/`offCh` channels are unbuffered and written with a
non-blocking `select`/`default` send, so a send is delivered exactly when
the listener goroutine is parked in its `select`; delivery and the
listener's handling of the signal are collapsed into one atomic step of the
model. -/

/-- An instrument handed to a caller: the no-op singleton or a live
wrapper. -/
inductive CounterInst
  | nop
  | live (c : Counter)
  deriving DecidableEq

/-- Recording on a counter instrument: `nopCounter` methods do nothing,
live counters behave as `prom.Counter`. -/
def CounterInst.applyCall : CounterInst → CounterCall → CounterInst
  | .nop, _ => .nop
  | .live c, k => .live (c.applyCall k)

def runCounterInst (ci : CounterInst) (calls : List CounterCall) : CounterInst :=
  calls.foldl CounterInst.applyCall ci

/-- The backend calls observable from a counter instrument. -/
def CounterInst.backendAdds : CounterInst → List (ℚ × List (String × String))
  | .nop => []
  | .live c => c.backendAdds

inductive UpDownInst
  | nop
  | live (c : UpDownCounter)
  deriving DecidableEq

def UpDownInst.applyCall : UpDownInst → UpDownCall → UpDownInst
  | .nop, _ => .nop
  | .live c, k => .live (c.applyCall k)

def runUpDownInst (ci : UpDownInst) (calls : List UpDownCall) : UpDownInst :=
  calls.foldl UpDownInst.applyCall ci

def UpDownInst.backendAdds : UpDownInst → List (ℚ × List (String × String))
  | .nop => []
  | .live c => c.backendAdds

inductive GaugeInst
  | nop
  | live (g : Gauge)
  deriving DecidableEq

def GaugeInst.applyCall : GaugeInst → GaugeCall → GaugeInst
  | .nop, _ => .nop
  | .live g, k => .live (g.applyCall k)

def runGaugeInst (gi : GaugeInst) (calls : List GaugeCall) : GaugeInst :=
  calls.foldl GaugeInst.applyCall gi

def GaugeInst.backendRecords : GaugeInst → List (ℚ × List (String × String))
  | .nop => []
  | .live g => g.backendRecords

inductive HistogramInst
  | nop
  | live (h : Histogram)
  deriving DecidableEq

def HistogramInst.applyCall : HistogramInst → HistogramCall → HistogramInst
  | .nop, _ => .nop
  | .live h, k => .live (h.applyCall k)

def runHistogramInst (hi : HistogramInst) (calls : List HistogramCall) : HistogramInst :=
  calls.foldl HistogramInst.applyCall hi

def HistogramInst.backendRecords : HistogramInst → List (ℚ × List (String × String))
  | .nop => []
  | .live h => h.backendRecords

/-- An observable event of the Meter Controller: a line written to the
injected info or error log sink, or a start/stop side effect on the runtime
collector or the meter servers. -/
inductive MEvent
  | infoLog (s : String)
  | errorLog (s : String)
  | collectorStart
  | collectorStop
  | serverStart
  | serverStop
  deriving DecidableEq

/-- The lines that reached the injected info sink (`cfg.WriteInfoOrNot`). -/
def infoLogs (evs : List MEvent) : List String :=
  evs.filterMap fun e =>
    match e with
    | .infoLog s => some s
    | _ => none

/-- The lines that reached the injected write-error sink
(`cfg.WriteErrorOrNot`). -/
def errorLogs (evs : List MEvent) : List String :=
  evs.filterMap fun e =>
    match e with
    | .errorLog s => some s
    | _ => none

/-- `prom.PrometheusMeter`: the `running` int32 flag, whether the
`signalListener` goroutine is alive and parked in its `select`, and the
accumulated observable events. -/
structure PrometheusMeter where
  running : Int
  listenerParked : Bool
  events : List MEvent
  deriving DecidableEq

/-- The state `NewPrometheusMeter` hands back: `running: 1`, with the
`signalListener` goroutine spawned and waiting on both channels (the
construction-time collector/server starts are not recorded here; the event
log of interest starts empty). -/
def PrometheusMeter.afterNew : PrometheusMeter :=
  { running := 1, listenerParked := true, events := [] }

/-- `cfg.WriteInfoOrNot`: the message reaches the injected info sink. -/
def PrometheusMeter.writeInfoOrNot (p : PrometheusMeter) (s : String) : PrometheusMeter :=
  { p with events := p.events ++ [.infoLog s] }

/-- `PrometheusMeter.isRunning`: `atomic.LoadInt32(&p.running) == 1`. -/
def PrometheusMeter.isRunning (p : PrometheusMeter) : Bool :=
  p.running == 1

/-- The `case <-p.onCh:` arm of `signalListener`: CAS `running` 0 → 1; on
success log and start the collector and the servers, then loop; on failure
log "already running" and `return` — the goroutine exits, so the listener
is no longer parked. -/
def PrometheusMeter.handleOnSignal (p : PrometheusMeter) : PrometheusMeter :=
  if p.running = 0 then
    { running := 1, listenerParked := p.listenerParked,
      events := p.events ++
        [.infoLog "prometheus meter is started", .collectorStart, .serverStart] }
  else
    { p with listenerParked := false,
             events := p.events ++ [.infoLog "prometheus meter is already running"] }

/-- The `case <-p.offCh:` arm of `signalListener`: CAS `running` 1 → 0; on
success log and stop the collector and the servers, then loop; on failure
log "already stopped" and `return` — the goroutine exits. -/
def PrometheusMeter.handleOffSignal (p : PrometheusMeter) : PrometheusMeter :=
  if p.running = 1 then
    { running := 0, listenerParked := p.listenerParked,
      events := p.events ++
        [.infoLog "prometheus meter is stopped", .collectorStop, .serverStop] }
  else
    { p with listenerParked := false,
             events := p.events ++ [.infoLog "prometheus meter is already stopped"] }

/-- `PrometheusMeter.WithRunning`: a non-blocking `select`/`default` send on
the matching unbuffered channel.  The send is delivered exactly when the
listener goroutine is parked in its `select` (otherwise the `default` arm
silently drops the request); delivery plus the listener's handling are one
step. -/
def PrometheusMeter.withRunning (p : PrometheusMeter) (turnOn : Bool) : PrometheusMeter :=
  if turnOn then
    if p.listenerParked then p.handleOnSignal else p
  else
    if p.listenerParked then p.handleOffSignal else p

/-- Result of one factory call: the instrument handed to the caller, the
meter state afterwards (log effects), and whether backend instrument
creation was attempted. -/
structure FactoryResult (I : Type) where
  inst : I
  meter : PrometheusMeter
  attemptedCreate : Bool
  deriving DecidableEq

/-- `PrometheusMeter.NewCounter`.  `createRes` is the outcome of the
external backend call `p.meter.Float64Counter(metricName, desc, unit)`. -/
def PrometheusMeter.newCounter (p : PrometheusMeter) (createRes : Except String Unit)
    (metricName : List ℕ) (_desc _unit : String) : FactoryResult CounterInst :=
  if !p.isRunning then ⟨.nop, p, false⟩
  else
    match createRes with
    | .error e =>
      ⟨.nop, p.writeInfoOrNot ("failed to create prometheus counter: " ++ e), true⟩
    | .ok _ => ⟨.live (Counter.new metricName), p, true⟩

/-- `PrometheusMeter.NewUpDownCounter`. -/
def PrometheusMeter.newUpDownCounter (p : PrometheusMeter)
    (createRes : Except String Unit) (metricName : List ℕ)
    (_desc _unit : String) : FactoryResult UpDownInst :=
  if !p.isRunning then ⟨.nop, p, false⟩
  else
    match createRes with
    | .error e =>
      ⟨.nop, p.writeInfoOrNot ("failed to create prometheus upDownCounter: " ++ e), true⟩
    | .ok _ => ⟨.live (UpDownCounter.new metricName), p, true⟩

/-- `PrometheusMeter.NewGauge`. -/
def PrometheusMeter.newGauge (p : PrometheusMeter) (createRes : Except String Unit)
    (metricName : List ℕ) (_desc _unit : String) : FactoryResult GaugeInst :=
  if !p.isRunning then ⟨.nop, p, false⟩
  else
    match createRes with
    | .error e =>
      ⟨.nop, p.writeInfoOrNot ("failed to create prometheus gauge: " ++ e), true⟩
    | .ok _ => ⟨.live (Gauge.new metricName), p, true⟩

/-- `PrometheusMeter.NewHistogram`. -/
def PrometheusMeter.newHistogram (p : PrometheusMeter) (createRes : Except String Unit)
    (metricName : List ℕ) (_desc _unit : String) : FactoryResult HistogramInst :=
  if !p.isRunning then ⟨.nop, p, false⟩
  else
    match createRes with
    | .error e =>
      ⟨.nop, p.writeInfoOrNot ("failed to create prometheus histogram: " ++ e), true⟩
    | .ok _ => ⟨.live (Histogram.new metricName), p, true⟩

lemma runCounterInst_nop (calls : List CounterCall) :
    runCounterInst .nop calls = .nop := by
  induction calls with
  | nil => rfl
  | cons k ks ih =>
    unfold runCounterInst at *
    rw [List.foldl_cons]
    exact ih

lemma runUpDownInst_nop (calls : List UpDownCall) :
    runUpDownInst .nop calls = .nop := by
  induction calls with
  | nil => rfl
  | cons k ks ih =>
    unfold runUpDownInst at *
    rw [List.foldl_cons]
    exact ih

lemma runGaugeInst_nop (calls : List GaugeCall) :
    runGaugeInst .nop calls = .nop := by
  induction calls with
  | nil => rfl
  | cons k ks ih =>
    unfold runGaugeInst at *
    rw [List.foldl_cons]
    exact ih

lemma runHistogramInst_nop (calls : List HistogramCall) :
    runHistogramInst .nop calls = .nop := by
  induction calls with
  | nil => rfl
  | cons k ks ih =>
    unfold runHistogramInst at *
    rw [List.foldl_cons]
    exact ih

/-- C2 (behaviour of the code at the failing input): from the initial state
(Running, listener parked), a redundant turn-on signal leaves the state at
Running, writes the "already running" line to the info sink and is not an
error — but the `return` in `signalListener` terminates the goroutine, so
the listener is no longer parked and a later turn-off signal is dropped
without effect: the state stays Running instead of transitioning to
Stopped. -/
theorem signal_listener_exits_on_redundant_signal :
    (PrometheusMeter.afterNew.withRunning true).running = 1 ∧
    (PrometheusMeter.afterNew.withRunning true).events
      = [MEvent.infoLog "prometheus meter is already running"] ∧
    errorLogs (PrometheusMeter.afterNew.withRunning true).events = [] ∧
    (PrometheusMeter.afterNew.withRunning true).listenerParked = false ∧
    ((PrometheusMeter.afterNew.withRunning true).withRunning false
      = PrometheusMeter.afterNew.withRunning true) ∧
    ((PrometheusMeter.afterNew.withRunning true).withRunning false).running = 1 := by
  decide

/-- C4: `WithRunning(true)` twice in a row from the initial Running state.
The second request is silently dropped (the resulting state is exactly the
state after the first call, so no further event is recorded and no error is
raised), and the final observable state is Running.  Both calls are total
functions of the state: the caller is never blocked. -/
theorem withRunning_double_on_coalesces (p : PrometheusMeter)
    (h1 : p.running = 1) (h2 : p.listenerParked = true) :
    (p.withRunning true).withRunning true = p.withRunning true ∧
    ((p.withRunning true).withRunning true).running = 1 ∧
    ((p.withRunning true).withRunning true).isRunning = true := by
  have hstep : p.withRunning true =
      { running := p.running
        listenerParked := false
        events := p.events ++ [MEvent.infoLog "prometheus meter is already running"] } := by
    unfold PrometheusMeter.withRunning PrometheusMeter.handleOnSignal
    simp [h1, h2]
  have hstep2 : (p.withRunning true).withRunning true = p.withRunning true := by
    rw [hstep]
    unfold PrometheusMeter.withRunning
    simp
  refine ⟨hstep2, ?_, ?_⟩
  · rw [hstep2, hstep]
    exact h1
  · rw [hstep2, hstep]
    unfold PrometheusMeter.isRunning
    simp [h1]

/-- Witness for C4 at the initial meter state. -/
theorem withRunning_double_on_coalesces_witness :
    (PrometheusMeter.afterNew.withRunning true).withRunning true
        = PrometheusMeter.afterNew.withRunning true ∧
    ((PrometheusMeter.afterNew.withRunning true).withRunning true).running = 1 ∧
    ((PrometheusMeter.afterNew.withRunning true).withRunning true).isRunning = true :=
  withRunning_double_on_coalesces PrometheusMeter.afterNew rfl rfl

/-- C5: while the Meter Controller is Stopped, every factory call returns
the no-op instrument immediately, without attempting backend creation and
without any new log event; and any number of recording calls on a no-op
instrument produces zero observable backend effects. -/
theorem stopped_meter_factories_return_nop (p : PrometheusMeter)
    (hstop : p.isRunning = false) :
    (∀ (createRes : Except String Unit) (metricName : List ℕ) (desc unitStr : String),
      p.newCounter createRes metricName desc unitStr = ⟨.nop, p, false⟩ ∧
      p.newUpDownCounter createRes metricName desc unitStr = ⟨.nop, p, false⟩ ∧
      p.newGauge createRes metricName desc unitStr = ⟨.nop, p, false⟩ ∧
      p.newHistogram createRes metricName desc unitStr = ⟨.nop, p, false⟩) ∧
    (∀ calls : List CounterCall, (runCounterInst .nop calls).backendAdds = []) ∧
    (∀ calls : List UpDownCall, (runUpDownInst .nop calls).backendAdds = []) ∧
    (∀ calls : List GaugeCall, (runGaugeInst .nop calls).backendRecords = []) ∧
    (∀ calls : List HistogramCall, (runHistogramInst .nop calls).backendRecords = []) := by
  refine ⟨?_, ?_, ?_, ?_, ?_⟩
  · intro createRes metricName desc unitStr
    refine ⟨?_, ?_, ?_, ?_⟩ <;>
      simp [PrometheusMeter.newCounter, PrometheusMeter.newUpDownCounter,
        PrometheusMeter.newGauge, PrometheusMeter.newHistogram, hstop]
  · intro calls
    rw [runCounterInst_nop]
    rfl
  · intro calls
    rw [runUpDownInst_nop]
    rfl
  · intro calls
    rw [runGaugeInst_nop]
    rfl
  · intro calls
    rw [runHistogramInst_nop]
    rfl

/-- A concrete Stopped meter state, used by witnesses. -/
def stoppedMeter : PrometheusMeter :=
  { running := 0, listenerParked := true, events := [] }

/-- Witness for C5: a stopped meter state and two recording calls. -/
theorem stopped_meter_factories_return_nop_witness :
    stoppedMeter.newCounter (Except.ok ()) (strRunes "m") "d" "u"
      = ⟨.nop, stoppedMeter, false⟩ ∧
    (runCounterInst .nop [CounterCall.incrOne, CounterCall.incr 7]).backendAdds = [] :=
  ⟨((stopped_meter_factories_return_nop stoppedMeter rfl).1
      (Except.ok ()) (strRunes "m") "d" "u").1,
   (stopped_meter_factories_return_nop stoppedMeter rfl).2.1
      [CounterCall.incrOne, CounterCall.incr 7]⟩

/-- C6 counterexample: at a Running meter whose backend rejects the counter
parameters, the factory call writes the failure line to the *info* sink
(`cfg.WriteInfoOrNot`) — the injected write-error sink receives nothing —
so the claim "the failure is logged via the injected write-error sink" is
false as stated (the rest of the claim holds: the caller gets the no-op
counter). -/
theorem creation_failure_not_logged_to_error_sink :
    (PrometheusMeter.afterNew.newCounter (Except.error "induced failure")
        (strRunes "m") "d" "u").inst = CounterInst.nop ∧
    errorLogs (PrometheusMeter.afterNew.newCounter (Except.error "induced failure")
        (strRunes "m") "d" "u").meter.events = [] ∧
    infoLogs (PrometheusMeter.afterNew.newCounter (Except.error "induced failure")
        (strRunes "m") "d" "u").meter.events
      = ["failed to create prometheus counter: induced failure"] := by
  decide

/-- C6, amended: for every factory call made while Running, if backend
instrument creation fails the failure is logged via the injected write-info
sink (`cfg.WriteInfoOrNot`) — the write-error sink is untouched — and the
caller receives the no-op instrument of the matching kind; the factory is a
total function that never propagates an error value (on success it returns
the live wrapper). -/
theorem creation_failure_yields_nop_and_info_log (p : PrometheusMeter)
    (hrun : p.isRunning = true) (e : String) (metricName : List ℕ)
    (desc unitStr : String) :
    p.newCounter (Except.error e) metricName desc unitStr
      = ⟨.nop, p.writeInfoOrNot ("failed to create prometheus counter: " ++ e), true⟩ ∧
    p.newUpDownCounter (Except.error e) metricName desc unitStr
      = ⟨.nop, p.writeInfoOrNot ("failed to create prometheus upDownCounter: " ++ e), true⟩ ∧
    p.newGauge (Except.error e) metricName desc unitStr
      = ⟨.nop, p.writeInfoOrNot ("failed to create prometheus gauge: " ++ e), true⟩ ∧
    p.newHistogram (Except.error e) metricName desc unitStr
      = ⟨.nop, p.writeInfoOrNot ("failed to create prometheus histogram: " ++ e), true⟩ ∧
    (∀ s : String, errorLogs (p.writeInfoOrNot s).events = errorLogs p.events ∧
      infoLogs (p.writeInfoOrNot s).events = infoLogs p.events ++ [s]) ∧
    p.newCounter (Except.ok ()) metricName desc unitStr
      = ⟨.live (Counter.new metricName), p, true⟩ := by
  refine ⟨?_, ?_, ?_, ?_, ?_, ?_⟩
  · simp [PrometheusMeter.newCounter, hrun]
  · simp [PrometheusMeter.newUpDownCounter, hrun]
  · simp [PrometheusMeter.newGauge, hrun]
  · simp [PrometheusMeter.newHistogram, hrun]
  · intro s
    unfold PrometheusMeter.writeInfoOrNot errorLogs infoLogs
    constructor
    · rw [List.filterMap_append]
      simp
    · rw [List.filterMap_append]
      simp
  · simp [PrometheusMeter.newCounter, hrun]

/-- Witness for the amended C6 at a concrete Running meter and failing
backend. -/
theorem creation_failure_yields_nop_and_info_log_witness :
    PrometheusMeter.afterNew.newGauge (Except.error "bad params")
        (strRunes "g") "d" "u"
      = ⟨.nop, PrometheusMeter.afterNew.writeInfoOrNot
          ("failed to create prometheus gauge: " ++ "bad params"), true⟩ :=
  (creation_failure_yields_nop_and_info_log PrometheusMeter.afterNew rfl
    "bad params" (strRunes "g") "d" "u").2.2.1

/-! ## internal/runtime: the Runtime Sampler's classification of samples
(src/internal/runtime/collector.go, `collectRuntimeMetric`,
`newSystemGauge`, `newSystemUpDownCounter`, `newSystemCounter`).

`runtime/metrics` descriptors and samples are external inputs; a sample is
its name, its value kind and the two possible payloads (`Value.Uint64()`
and `Value.Float64()`).  The forwarding path is modelled with the live
prom wrappers (the meter running and backend creation succeeding, the
state in which the sampler operates): each branch builds a fresh instrument
via the meter factory contract, tags it with `metric_type = "base"` and
records once; the calls that reach the backend are read back off the
wrapper. -/

/-- `runtime/metrics.ValueKind` (the kinds the collector distinguishes). -/
inductive MetricsValueKind
  | kindUint64
  | kindFloat64
  | kindFloat64Histogram
  | kindBad
  deriving DecidableEq

/-- One `runtime/metrics` sample: its name and its value. -/
structure RuntimeSample where
  name : List ℕ
  kind : MetricsValueKind
  uint64Val : ℕ
  float64Val : ℚ
  deriving DecidableEq

/-- The part of a `runtime/metrics` descriptor the collector reads. -/
structure RuntimeDesc where
  cumulative : Bool
  deriving DecidableEq

/-- `collector.newSystemCounter`: fresh counter from the meter factory,
tagged `metric_type = "base"` (live path). -/
def newSystemCounter (metricName : List ℕ) : Counter :=
  (Counter.new metricName).addTag "metric_type" "base"

/-- `collector.newSystemUpDownCounter` (live path). -/
def newSystemUpDownCounter (metricName : List ℕ) : UpDownCounter :=
  (UpDownCounter.new metricName).addTag "metric_type" "base"

/-- `collector.newSystemGauge` (live path). -/
def newSystemGauge (metricName : List ℕ) : Gauge :=
  (Gauge.new metricName).addTag "metric_type" "base"

/-- A call that reached the backend, labelled with the instrument kind it
went through. -/
inductive ForwardedCall
  | counterIncr (name : List ℕ) (tags : List (String × String)) (delta : ℚ)
  | upDownUpdate (name : List ℕ) (tags : List (String × String)) (delta : ℚ)
  | gaugeUpdate (name : List ℕ) (tags : List (String × String)) (v : ℚ)
  deriving DecidableEq

def counterForwards (c : Counter) : List ForwardedCall :=
  c.backendAdds.map fun a => .counterIncr c.base.name a.2 a.1

def upDownForwards (c : UpDownCounter) : List ForwardedCall :=
  c.backendAdds.map fun a => .upDownUpdate c.base.name a.2 a.1

def gaugeForwards (g : Gauge) : List ForwardedCall :=
  g.backendRecords.map fun a => .gaugeUpdate g.base.name a.2 a.1

/-- The per-sample body of `collector.collectRuntimeMetric`: route by the
descriptor's `Cumulative` flag and the value's `Kind()`.  Non-cumulative:
only `KindUint64` forwards, as a Gauge update of `float64(Uint64())`.
Cumulative: `KindUint64` forwards as a Counter `Incr` of
`float64(Uint64())`, `KindFloat64` as an UpDownCounter update of
`float64(Float64())`; `KindFloat64Histogram` and `KindBad` fall through
empty switch arms.  The sanitizer can panic (`none`). -/
def collectRuntimeSample (desc : RuntimeDesc) (s : RuntimeSample) :
    Option (List ForwardedCall) :=
  if !desc.cumulative then
    match s.kind with
    | .kindUint64 =>
      (sanitizeMetricName s.name).map fun n =>
        gaugeForwards ((newSystemGauge n).update (s.uint64Val : ℚ))
    | _ => some []
  else
    match s.kind with
    | .kindUint64 =>
      (sanitizeMetricName s.name).map fun n =>
        counterForwards ((newSystemCounter n).incr (s.uint64Val : ℚ))
    | .kindFloat64 =>
      (sanitizeMetricName s.name).map fun n =>
        upDownForwards ((newSystemUpDownCounter n).update s.float64Val)
    | .kindFloat64Histogram => some []
    | .kindBad => some []

/-- C3: the Runtime Sampler routes every sample solely by its
(cumulative, kind) pair — cumulative+UInt64 to a Counter `Incr` carrying
the raw sampled value as delta, cumulative+Float64 to an UpDownCounter
update, non-cumulative+UInt64 to a Gauge update, every other combination
to zero forwarded calls — and every forwarded instrument carries exactly
the tag `metric_type = "base"`. -/
theorem runtime_sampler_classification (desc : RuntimeDesc) (s : RuntimeSample)
    (sname : List ℕ) (hs : sanitizeMetricName s.name = some sname) :
    (desc.cumulative = true → s.kind = .kindUint64 →
      collectRuntimeSample desc s
        = some [.counterIncr sname [("metric_type", "base")] (s.uint64Val : ℚ)]) ∧
    (desc.cumulative = true → s.kind = .kindFloat64 →
      collectRuntimeSample desc s
        = some [.upDownUpdate sname [("metric_type", "base")] s.float64Val]) ∧
    (desc.cumulative = false → s.kind = .kindUint64 →
      collectRuntimeSample desc s
        = some [.gaugeUpdate sname [("metric_type", "base")] (s.uint64Val : ℚ)]) ∧
    (desc.cumulative = false → s.kind ≠ .kindUint64 →
      collectRuntimeSample desc s = some []) ∧
    (desc.cumulative = true →
      (s.kind = .kindFloat64Histogram ∨ s.kind = .kindBad) →
      collectRuntimeSample desc s = some []) := by
  refine ⟨?_, ?_, ?_, ?_, ?_⟩
  · intro h1 h2
    simp [collectRuntimeSample, h1, h2, hs, newSystemCounter, Counter.new,
      Counter.addTag, Base.addTag, Counter.incr, Base.ready, counterForwards]
  · intro h1 h2
    simp [collectRuntimeSample, h1, h2, hs, newSystemUpDownCounter, UpDownCounter.new,
      UpDownCounter.addTag, Base.addTag, UpDownCounter.update, Base.ready, upDownForwards]
  · intro h1 h2
    simp [collectRuntimeSample, h1, h2, hs, newSystemGauge, Gauge.new,
      Gauge.addTag, Base.addTag, Gauge.update, Base.ready, gaugeForwards]
  · intro h1 h2
    cases hk : s.kind with
    | kindUint64 => exact absurd hk h2
    | kindFloat64 => simp [collectRuntimeSample, h1, hk]
    | kindFloat64Histogram => simp [collectRuntimeSample, h1, hk]
    | kindBad => simp [collectRuntimeSample, h1, hk]
  · intro h1 h2
    rcases h2 with hk | hk <;> simp [collectRuntimeSample, h1, hk]

/-- Witness for C3 at a concrete descriptor and sample. -/
theorem runtime_sampler_classification_witness :
    collectRuntimeSample ⟨true⟩
        ⟨strRunes "/gc/heap/allocs:bytes", .kindUint64, 42, 0⟩
      = some [.counterIncr (strRunes "gc_heap_allocs_bytes")
          [("metric_type", "base")] (42 : ℚ)] :=
  (runtime_sampler_classification ⟨true⟩
      ⟨strRunes "/gc/heap/allocs:bytes", .kindUint64, 42, 0⟩
      (strRunes "gc_heap_allocs_bytes") (by decide)).1 rfl rfl

/-! ## internal/tag: Tags and their canonical serialization
(the `tag` package part of src/unnamed/part_012).

`Tags.String` copies the tag list into a Go `map[string]interface` (a later
entry with the same key overwrites an earlier one) and `json.Marshal`s the
map; `encoding/json` emits a map's entries with the keys in sorted
(bytewise) order.  Strings are rune lists as elsewhere in this file; the
serialized JSON text is itself produced as a rune list (34 `"`,
44 `,`, 58 `:`, 123 and 125 the braces). -/

/-- Bytewise (code-point-wise) comparison of two rune strings, the order
`encoding/json` sorts map keys by. -/
def runeLe : List ℕ → List ℕ → Bool
  | [], _ => true
  | _ :: _, [] => false
  | x :: xs, y :: ys =>
    if x < y then true
    else if y < x then false
    else runeLe xs ys

/-- `runeLe` as a relation. -/
def keyRel (a b : List ℕ) : Prop := runeLe a b = true

instance : DecidableRel keyRel := fun a b =>
  inferInstanceAs (Decidable (runeLe a b = true))

lemma runeLe_total (a : List ℕ) : ∀ b, runeLe a b = true ∨ runeLe b a = true := by
  induction a with
  | nil => intro b; left; rfl
  | cons x xs ih =>
    intro b
    cases b with
    | nil => right; rfl
    | cons y ys =>
      unfold runeLe
      rcases Nat.lt_trichotomy x y with h | h | h
      · left
        simp [h]
      · subst h
        simp only [lt_irrefl, if_false]
        exact ih ys
      · right
        simp [h]

lemma runeLe_antisymm (a : List ℕ) :
    ∀ b, runeLe a b = true → runeLe b a = true → a = b := by
  induction a with
  | nil =>
    intro b h1 h2
    cases b with
    | nil => rfl
    | cons y ys => exact absurd h2 (by simp [runeLe])
  | cons x xs ih =>
    intro b h1 h2
    cases b with
    | nil => exact absurd h1 (by simp [runeLe])
    | cons y ys =>
      unfold runeLe at h1 h2
      rcases Nat.lt_trichotomy x y with h | h | h
      · rw [if_neg (by omega), if_pos h] at h2
        cases h2
      · subst h
        simp only [lt_irrefl, if_false] at h1 h2
        rw [ih ys h1 h2]
      · rw [if_neg (by omega), if_pos h] at h1
        cases h1

lemma runeLe_trans (a : List ℕ) :
    ∀ b c, runeLe a b = true → runeLe b c = true → runeLe a c = true := by
  induction a with
  | nil => intro b c _ _; rfl
  | cons x xs ih =>
    intro b c h1 h2
    cases b with
    | nil => exact absurd h1 (by simp [runeLe])
    | cons y ys =>
      cases c with
      | nil => exact absurd h2 (by simp [runeLe])
      | cons z zs =>
        unfold runeLe at h1 h2 ⊢
        rcases Nat.lt_trichotomy x y with hxy | hxy | hxy
        · rcases Nat.lt_trichotomy y z with hyz | hyz | hyz
          · rw [if_pos (by omega)]
          · subst hyz
            rw [if_pos (by omega)]
          · rw [if_neg (by omega), if_pos hyz] at h2
            cases h2
        · subst hxy
          rcases Nat.lt_trichotomy x z with hyz | hyz | hyz
          · rw [if_pos hyz]
          · subst hyz
            simp only [lt_irrefl, if_false] at h1 h2 ⊢
            exact ih ys zs h1 h2
          · rw [if_neg (by omega), if_pos hyz] at h2
            cases h2
        · rw [if_neg (by omega), if_pos hxy] at h1
          cases h1

instance : IsTotal (List ℕ) keyRel := ⟨runeLe_total⟩

instance : IsTrans (List ℕ) keyRel := ⟨fun a b c => runeLe_trans a b c⟩

instance : IsAntisymm (List ℕ) keyRel := ⟨fun a b => runeLe_antisymm a b⟩

/-- One `attribute.KeyValue` as built by `attribute.String(key, value)`. -/
structure GoTag where
  key : List ℕ
  value : List ℕ
  deriving DecidableEq

/-- One assignment `tagMap[k] = v` on the Go map, modelled as an
association list: overwrite the existing entry for `k` or append. -/
def goMapSet (m : List (List ℕ × List ℕ)) (k v : List ℕ) :
    List (List ℕ × List ℕ) :=
  if m.any fun p => p.1 == k then
    m.map fun p => if p.1 == k then (p.1, v) else p
  else m ++ [(k, v)]

/-- The `for _, tag := range t` loop of `Tags.String`: build the map. -/
def tagsToMap (t : List GoTag) : List (List ℕ × List ℕ) :=
  t.foldl (fun m tg => goMapSet m tg.key tg.value) []

/-- Reading `tagMap[k]` back (used by the JSON encoder). -/
def goMapLookup (m : List (List ℕ × List ℕ)) (k : List ℕ) : List ℕ :=
  match m.find? fun p => p.1 == k with
  | some p => p.2
  | none => []

/-- A JSON string literal (assuming, as for this repository's tags, no
characters that need escaping): rune 34 is the double quote. -/
def jsonQuoteRunes (s : List ℕ) : List ℕ :=
  34 :: (s ++ [34])

/-- `tag.Tags.String`: marshal the map built from the tag list;
`encoding/json` emits the entries with keys in sorted bytewise order. -/
def tagsString (t : List GoTag) : List ℕ :=
  let m := tagsToMap t
  let ks := List.insertionSort keyRel (m.map Prod.fst)
  [123] ++
    (List.intercalate [44]
      (ks.map fun k => jsonQuoteRunes k ++ [58] ++ jsonQuoteRunes (goMapLookup m k))) ++
    [125]

example :
    tagsString [⟨strRunes "b", strRunes "2"⟩, ⟨strRunes "a", strRunes "1"⟩]
      = strRunes "\x7b\"a\":\"1\",\"b\":\"2\"\x7d" := by decide

/-- C9 counterexample: the two tag sequences `[a:1, a:2]` and `[a:2, a:1]`
contain the same key/value pairs in different insertion orders, yet
serialize differently — the Go map keeps the *last* value written for a
duplicated key, so the order of duplicates is observable. -/
theorem tags_string_differs_on_duplicate_keys :
    ([⟨strRunes "a", strRunes "1"⟩, ⟨strRunes "a", strRunes "2"⟩] : List GoTag).Perm
      [⟨strRunes "a", strRunes "2"⟩, ⟨strRunes "a", strRunes "1"⟩] ∧
    tagsString [⟨strRunes "a", strRunes "1"⟩, ⟨strRunes "a", strRunes "2"⟩]
      ≠ tagsString [⟨strRunes "a", strRunes "2"⟩, ⟨strRunes "a", strRunes "1"⟩] := by
  constructor
  · decide
  · decide

/-- Building the Go map from tags whose keys are pairwise distinct performs
no overwrite: the map holds exactly the tag pairs in insertion order. -/
lemma foldl_goMapSet_of_nodup (t : List GoTag) :
    ∀ m : List (List ℕ × List ℕ),
      (m.map Prod.fst ++ t.map GoTag.key).Nodup →
      t.foldl (fun acc tg => goMapSet acc tg.key tg.value) m
        = m ++ t.map fun tg => (tg.key, tg.value) := by
  induction t with
  | nil =>
    intro m _
    rw [List.foldl_nil, List.map_nil, List.append_nil]
  | cons tg ts ih =>
    intro m hnd
    rw [List.map_cons] at hnd
    rcases List.nodup_append.1 hnd with ⟨hm, hts, hdisj⟩
    have hkey : tg.key ∉ m.map Prod.fst := fun hmem =>
      (hdisj hmem) (List.mem_cons_self _ _)
    have hany : (m.any fun p => p.1 == tg.key) = false := by
      rw [Bool.eq_false_iff, Ne, List.any_eq_true]
      rintro ⟨p, hp, hpk⟩
      have hpe : p.1 = tg.key := by simpa using hpk
      exact hkey (hpe ▸ List.mem_map_of_mem Prod.fst hp)
    have hset : goMapSet m tg.key tg.value = m ++ [(tg.key, tg.value)] := by
      unfold goMapSet
      rw [hany]
      simp
    rw [List.foldl_cons, hset, ih (m ++ [(tg.key, tg.value)]) ?_, List.append_assoc]
    · rfl
    · rw [List.map_append, List.append_assoc]
      exact hnd

/-- In an association list with pairwise-distinct keys, entries are
determined by their key. -/
lemma entry_eq_of_nodup_keys :
    ∀ {m : List (List ℕ × List ℕ)}, (m.map Prod.fst).Nodup →
      ∀ {p q : List ℕ × List ℕ}, p ∈ m → q ∈ m → p.1 = q.1 → p = q := by
  intro m
  induction m with
  | nil =>
    intro _ p q hp _ _
    cases hp
  | cons a l ih =>
    intro hnd p q hp hq hk
    rw [List.map_cons, List.nodup_cons] at hnd
    rcases List.mem_cons.1 hp with rfl | hp2
    · rcases List.mem_cons.1 hq with rfl | hq2
      · rfl
      · exact absurd (hk ▸ List.mem_map_of_mem Prod.fst hq2) hnd.1
    · rcases List.mem_cons.1 hq with rfl | hq2
      · exact absurd (hk ▸ List.mem_map_of_mem Prod.fst hp2) hnd.1
      · exact ih hnd.2 hp2 hq2 hk

/-- `find?` by key in a distinct-key association list returns the unique
entry carrying that key. -/
lemma find?_eq_some_of_mem_of_nodup {m : List (List ℕ × List ℕ)}
    (hnd : (m.map Prod.fst).Nodup) {p : List ℕ × List ℕ} {k : List ℕ}
    (hp : p ∈ m) (hk : p.1 = k) :
    (m.find? fun q => q.1 == k) = some p := by
  induction m with
  | nil => cases hp
  | cons a l ih =>
    by_cases ha : (a.1 == k) = true
    · rw [List.find?_cons_of_pos l ha]
      have hae : a = p := by
        refine entry_eq_of_nodup_keys hnd (List.mem_cons_self a l) hp ?_
        have h1 : a.1 = k := by simpa using ha
        rw [h1, hk]
      rw [hae]
    · rw [List.find?_cons_of_neg l ha]
      rcases List.mem_cons.1 hp with rfl | hp2
      · exact absurd (by simpa using hk) ha
      · rw [List.map_cons, List.nodup_cons] at hnd
        exact ih hnd.2 hp2

/-- Looking a key up in the tag map is invariant under permutation of a
distinct-key entry list. -/
lemma goMapLookup_eq_of_perm {m1 m2 : List (List ℕ × List ℕ)}
    (hperm : m1.Perm m2) (hnd : (m1.map Prod.fst).Nodup) (k : List ℕ) :
    goMapLookup m1 k = goMapLookup m2 k := by
  have hnd2 : (m2.map Prod.fst).Nodup := ((hperm.map Prod.fst).nodup_iff).1 hnd
  unfold goMapLookup
  cases hf : m1.find? fun p => p.1 == k with
  | none =>
    rw [List.find?_eq_none] at hf
    have hf2 : (m2.find? fun p => p.1 == k) = none := by
      rw [List.find?_eq_none]
      intro x hx
      exact hf x (hperm.mem_iff.2 hx)
    rw [hf2]
  | some p =>
    have hp2 : p ∈ m2 := hperm.mem_iff.1 (List.mem_of_find?_eq_some hf)
    have hk : p.1 = k := by simpa using List.find?_some hf
    rw [find?_eq_some_of_mem_of_nodup hnd2 hp2 hk]

/-- C9, amended: tag-set serialization is order-independent for tag
sequences in which no key occurs twice: permuting the insertion order does
not change the serialized canonical string. -/
theorem tags_string_order_independent (t1 t2 : List GoTag)
    (hperm : t1.Perm t2) (hnd : (t1.map GoTag.key).Nodup) :
    tagsString t1 = tagsString t2 := by
  have hm1 : tagsToMap t1 = t1.map fun tg => (tg.key, tg.value) :=
    foldl_goMapSet_of_nodup t1 [] (by simpa using hnd)
  have hnd2 : (t2.map GoTag.key).Nodup := ((hperm.map GoTag.key).nodup_iff).1 hnd
  have hm2 : tagsToMap t2 = t2.map fun tg => (tg.key, tg.value) :=
    foldl_goMapSet_of_nodup t2 [] (by simpa using hnd2)
  have hpermM : (tagsToMap t1).Perm (tagsToMap t2) := by
    rw [hm1, hm2]
    exact hperm.map _
  have hndM : ((tagsToMap t1).map Prod.fst).Nodup := by
    rw [hm1, List.map_map]
    exact hnd
  have hkeys : List.insertionSort keyRel ((tagsToMap t1).map Prod.fst)
      = List.insertionSort keyRel ((tagsToMap t2).map Prod.fst) := by
    refine List.eq_of_perm_of_sorted ?_
      (List.sorted_insertionSort keyRel _) (List.sorted_insertionSort keyRel _)
    exact (List.perm_insertionSort keyRel _).trans
      ((hpermM.map Prod.fst).trans (List.perm_insertionSort keyRel _).symm)
  have hmaps : (List.insertionSort keyRel ((tagsToMap t2).map Prod.fst)).map
        (fun k => jsonQuoteRunes k ++ [58] ++ jsonQuoteRunes (goMapLookup (tagsToMap t1) k))
      = (List.insertionSort keyRel ((tagsToMap t2).map Prod.fst)).map
        (fun k => jsonQuoteRunes k ++ [58] ++ jsonQuoteRunes (goMapLookup (tagsToMap t2) k)) :=
    List.map_congr_left fun k _ => by rw [goMapLookup_eq_of_perm hpermM hndM k]
  unfold tagsString
  dsimp only
  rw [hkeys, hmaps]

/-- Witness for the amended C9: `{a:1, b:2}` serialized in either insertion
order yields the same string. -/
theorem tags_string_order_independent_witness :
    tagsString [⟨strRunes "a", strRunes "1"⟩, ⟨strRunes "b", strRunes "2"⟩]
      = tagsString [⟨strRunes "b", strRunes "2"⟩, ⟨strRunes "a", strRunes "1"⟩] :=
  tags_string_order_independent _ _ (by decide) (by decide)
